import Mathlib

/-!
A shallow embedding of the matching-and-expectation core of the
MathFellowAttendance repository (src/matching.py and src/config.py).

Dates are modelled as natural numbers counting days since a fixed Monday,
so that `d % 7` is exactly the Python `date.weekday()` value (Monday = 0);
`d + 1` is the next calendar day, mirroring `timedelta(days=1)`.
Python dicts are modelled as association lists looked up with `alookup`,
which returns the value of the first (and, for dicts, only) binding of a
key. Python strings are Lean strings, with the handful of `str` methods
used by the source re-implemented structurally over the character list so
that every definition evaluates by `decide` or `rfl`.
-/

namespace MFA

/-- Association-list lookup, modelling Python dict access (`m.get(k)`). -/
def alookup {α β : Type} [DecidableEq α] : List (α × β) → α → Option β
  | [], _ => none
  | (k, v) :: rest, key => if k = key then some v else alookup rest key

/-- Python `s.lower()` (ASCII case folding, as in `Char.toLower`). -/
def strLower (s : String) : String := ⟨s.data.map Char.toLower⟩

/-- Drop leading whitespace characters. -/
def dropWS : List Char → List Char
  | [] => []
  | c :: rest => if c.isWhitespace then dropWS rest else c :: rest

/-- Python `s.strip()`: drop whitespace at both ends. -/
def pyStrip (s : String) : String := ⟨(dropWS (dropWS s.data.reverse).reverse)⟩

/-- Worker for Python `s.split()` with no separator: split on whitespace
runs, dropping empty parts; `cur` holds the current word reversed. -/
def splitWSAux : List Char → List Char → List String
  | [], cur => if cur = [] then [] else [⟨cur.reverse⟩]
  | c :: rest, cur =>
      if c.isWhitespace then
        if cur = [] then splitWSAux rest [] else ⟨cur.reverse⟩ :: splitWSAux rest []
      else splitWSAux rest (c :: cur)

/-- Python `s.split()` (no separator). -/
def pySplit (s : String) : List String := splitWSAux s.data []

/-- Characters of Python `" ".join(words)`. -/
def joinWords : List String → List Char
  | [] => []
  | [w] => w.data
  | w :: rest => w.data ++ ' ' :: joinWords rest

/-- src/matching.py `_normalize_name`: `" ".join(s.lower().split())`. -/
def _normalize_name (s : String) : String := ⟨joinWords (pySplit (strLower s))⟩

/-- Test that `needle` (second argument) is a prefix of `hay` (first argument). -/
def listStarts : List Char → List Char → Bool
  | _, [] => true
  | [], _ :: _ => false
  | a :: as, b :: bs => decide (b = a) && listStarts as bs

/-- Test that `needle` occurs contiguously inside `hay`. -/
def listHasSub : List Char → List Char → Bool
  | [], needle => listStarts [] needle
  | hay@(_ :: rest), needle => listStarts hay needle || listHasSub rest needle

/-- Python `needle in hay` on strings (substring containment). -/
def pyContains (hay needle : String) : Bool := listHasSub hay.data needle.data

/-- Python `s.replace(",", " ")`: the pattern is a single character, so this
is a character map. -/
def commaToSpace (s : String) : String :=
  ⟨s.data.map (fun c => if c = ',' then ' ' else c)⟩

/-- One iteration of the alias loop of src/matching.py
`sender_matches_fellow`: `alias = alias.strip().lower()`, then match when
the alias equals the (lowered, stripped) email or the normalized display
name, or is a substring of a non-empty email or display name. -/
def aliasMatches (email dn_lower alias0 : String) : Bool :=
  let al := strLower (pyStrip alias0)
  decide (al = email) || decide (al = dn_lower)
    || (decide (email ≠ "") && pyContains email al)
    || (decide (dn_lower ≠ "") && pyContains dn_lower al)

/-- Python `set(xs) & set(ys) == set(xs)`: set intersection equals the left
set exactly when every word of `xs` occurs in `ys`. -/
def wordSubset (xs ys : List String) : Bool := xs.all (fun w => decide (w ∈ ys))

/-- src/matching.py `sender_matches_fellow`. -/
def sender_matches_fellow (email0 display_name0 fellow_name : String)
    (fellow_aliases : List String) : Bool :=
  let email := pyStrip (strLower email0)
  let display_name := pyStrip display_name0
  let fellow_lower := _normalize_name fellow_name
  let dn_lower := _normalize_name display_name
  if fellow_aliases.any (aliasMatches email dn_lower) then true
  else if fellow_lower = "" ∨ dn_lower = "" then false
  else if pyContains dn_lower fellow_lower || pyContains fellow_lower dn_lower then true
  else wordSubset (pySplit fellow_lower) (pySplit (commaToSpace dn_lower))

/-- src/matching.py `which_fellow`: first candidate fellow (in list order)
matched by the sender, with a missing roster entry read as `[]`. -/
def which_fellow (email display_name : String) (candidate_fellows : List String)
    (fellows_map : List (String × List String)) : Option String :=
  match candidate_fellows with
  | [] => none
  | fellow :: rest =>
      if sender_matches_fellow email display_name fellow
          ((alookup fellows_map fellow).getD []) then some fellow
      else which_fellow email display_name rest fellows_map

/-- Spec data model `ExpectedEntry`: the tuple
`(date, day_name, session_index, time, fellows)` produced by
src/config.py `get_expected_attendance` and consumed by `mark_present`. -/
structure ExpectedEntry where
  date : Nat
  day_name : String
  session_index : Nat
  time : String
  fellows : List String
deriving DecidableEq

/-- Spec data model `AttendanceRecord`: the tuple
`(date, day_name, session_index, time, fellow, status, matched_email)`
appended to the report by src/matching.py `mark_present`. -/
structure AttendanceRecord where
  date : Nat
  day_name : String
  session_index : Nat
  time : String
  fellow : String
  status : String
  matched_email : Option String
deriving DecidableEq

/-- The sender loop of src/matching.py `mark_present`: starting from the
dict `matched`, process each observed `(email, display_name)` in arrival
order; a sender whose `which_fellow` result is a non-empty fellow name not
yet in `matched` adds the binding `fellow -> email`, and nothing is ever
overwritten (`if fellow and fellow not in matched`). -/
def markSenders (fellows : List String) (fellows_map : List (String × List String)) :
    List (String × String) → List (String × String) → List (String × String)
  | [], matched => matched
  | (email, display_name) :: rest, matched =>
      match which_fellow email display_name fellows fellows_map with
      | some fellow =>
          if fellow ≠ "" ∧ alookup matched fellow = none then
            markSenders fellows fellows_map rest (matched ++ [(fellow, email)])
          else
            markSenders fellows fellows_map rest matched
      | none => markSenders fellows fellows_map rest matched

/-- src/matching.py `mark_present`: for each expected entry, build the
matched dict from that date's senders (empty pool when the date is absent
from `senders_by_date`), then append one record per expected fellow, in
the order of the entry's fellow list. -/
def mark_present (expected_list : List ExpectedEntry)
    (senders_by_date : List (Nat × List (String × String)))
    (fellows_map : List (String × List String)) : List AttendanceRecord :=
  expected_list.foldl (fun report e =>
    let senders := (alookup senders_by_date e.date).getD []
    let matched := markSenders e.fellows fellows_map senders []
    report ++ e.fellows.map (fun fellow =>
      { date := e.date, day_name := e.day_name, session_index := e.session_index,
        time := e.time, fellow := fellow,
        status := if (alookup matched fellow).isSome then "present" else "absent",
        matched_email := alookup matched fellow })) []

/-! ## src/config.py -/

/-- A session dict from schedule.yaml: `session.get("time", "")` and
`session.get("fellows", [])` read optional keys, so both fields are
`Option`. -/
structure Session where
  time : Option String
  fellows : Option (List String)
deriving DecidableEq

/-- A week-type variant: weekday name -> ordered list of sessions. -/
abbrev Week := List (String × List Session)

/-- src/config.py `DAY_NAMES` (indexed by Python `date.weekday()`). -/
def DAY_NAMES : List String :=
  ["monday", "tuesday", "wednesday", "thursday", "friday", "saturday", "sunday"]

/-- src/config.py `SESSION_DAYS`. -/
def SESSION_DAYS : List String := ["sunday", "tuesday", "thursday"]

/-- src/config.py `ValueError("Unknown week type: ...")`, called
`ConfigurationError` by the spec. -/
inductive ConfigurationError where
  | unknownWeekType (week_type : String)
deriving DecidableEq

/-- The expression `DAY_NAMES[d.weekday()]` of src/config.py: the weekday name of day
`d`, with `d % 7` the Python `weekday()` value (the index is always in
range, so the default is never used). -/
def weekdayName (d : Nat) : String := DAY_NAMES.getD (d % 7) ""

/-- One iteration of the date loop of src/config.py
`get_expected_attendance`: the entries contributed by day `d` — none when
`d` is excluded, its weekday is not a session day, or its weekday is absent
from the selected week; otherwise one entry per configured session, in
configured order, carrying the session index, time label and fellow list
(`list(fellows)` copies the list, which is the identity on pure values). -/
def dayEntries (week : Week) (off_dates : List Nat) (d : Nat) : List ExpectedEntry :=
  if d ∈ off_dates then []
  else
    let day_name := weekdayName d
    if day_name ∉ SESSION_DAYS then []
    else
      match alookup week day_name with
      | none => []
      | some sessions =>
          sessions.enum.map (fun p =>
            { date := d, day_name := day_name, session_index := p.1,
              time := p.2.time.getD "", fellows := p.2.fellows.getD [] })

/-- The `while d <= end_date` loop of src/config.py
`get_expected_attendance`, advancing one day at a time; the first `Nat`
is the current day `d` and the second is the number of loop iterations
left, `end_date + 1 - d`. -/
def expandLoop (week : Week) (off_dates : List Nat) : Nat → Nat → List ExpectedEntry
  | _, 0 => []
  | d, fuel + 1 => dayEntries week off_dates d ++ expandLoop week off_dates (d + 1) fuel

/-- The date-range expansion of src/config.py `get_expected_attendance`:
all entries for days `d` with `start <= d <= end`, ascending. -/
def expandFrom (week : Week) (off_dates : List Nat) (d e : Nat) : List ExpectedEntry :=
  expandLoop week off_dates d (e + 1 - d)

/-- The function `expandFrom` satisfies the defining equation of the source loop
`while d <= end_date`. -/
theorem expandFrom_eq (week : Week) (off_dates : List Nat) (d e : Nat) :
    expandFrom week off_dates d e =
      if d ≤ e then dayEntries week off_dates d ++ expandFrom week off_dates (d + 1) e
      else [] := by
  unfold expandFrom
  by_cases h : d ≤ e
  · have h1 : e + 1 - d = (e + 1 - (d + 1)) + 1 := by omega
    rw [h1]
    simp [expandLoop, h]
  · have h1 : e + 1 - d = 0 := by omega
    rw [h1]
    simp [expandLoop, h]

deriving instance DecidableEq for Except

/-- src/config.py `get_expected_attendance`: reject an unconfigured week
type, otherwise expand the date range. -/
def get_expected_attendance (schedule : List (String × Week)) (week_type : String)
    (start_date end_date : Nat) (off_dates : List Nat) :
    Except ConfigurationError (List ExpectedEntry) :=
  match alookup schedule week_type with
  | none => Except.error (ConfigurationError.unknownWeekType week_type)
  | some week => Except.ok (expandFrom week off_dates start_date end_date)

/-- A scalar YAML value as produced by `yaml.safe_load` for fellows.yaml
entries. -/
inductive YamlScalar where
  | ynull
  | ystr (s : String)
  | yint (n : Int)
  | ybool (b : Bool)
deriving DecidableEq

/-- A fellows.yaml value: `None`, a scalar, or a list of scalars. -/
inductive YamlVal where
  | scalar (v : YamlScalar)
  | list (vs : List YamlScalar)
deriving DecidableEq

/-- Python `str(v)` on the scalars above. -/
def pyStr : YamlScalar → String
  | .ynull => "None"
  | .ystr s => s
  | .yint n => toString n
  | .ybool b => if b then "True" else "False"

/-- The per-entry normalization of src/config.py `load_fellows`:
`None` becomes `[]`, a list maps `str(v).strip().lower()` over its
elements, and any other scalar becomes a one-element list. -/
def coerceAliases : YamlVal → List String
  | .scalar .ynull => []
  | .list vs => vs.map (fun v => strLower (pyStrip (pyStr v)))
  | .scalar v => [strLower (pyStrip (pyStr v))]

/-- src/config.py `load_fellows`: `none` models a missing fellows.yaml or
a file that parses to `None`; an empty dict is also returned unchanged
(`if not data: return {}`); otherwise every entry is normalized. -/
def load_fellows (data : Option (List (String × YamlVal))) : List (String × List String) :=
  match data with
  | none => []
  | some d => if d = [] then [] else d.map (fun p => (p.1, coerceAliases p.2))

/-! ## Helper lemmas -/

theorem listStarts_self : ∀ l : List Char, listStarts l l = true := by
  intro l
  induction l with
  | nil => rfl
  | cons c rest ih => simp [listStarts, ih]

theorem listHasSub_self (l : List Char) : listHasSub l l = true := by
  cases l with
  | nil => rfl
  | cons c rest => simp [listHasSub, listStarts_self]

theorem listHasSub_empty (l : List Char) : listHasSub l [] = true := by
  cases l with
  | nil => rfl
  | cons c rest => simp [listHasSub, listStarts]

theorem pyContains_self (s : String) : pyContains s s = true := listHasSub_self s.data

theorem pyContains_empty (s : String) : pyContains s "" = true := listHasSub_empty s.data

theorem alookup_append {α β : Type} [DecidableEq α] (l₁ l₂ : List (α × β)) (k : α) :
    alookup (l₁ ++ l₂) k
      = match alookup l₁ k with
        | some v => some v
        | none => alookup l₂ k := by
  induction l₁ with
  | nil => simp [alookup]
  | cons p rest ih =>
      obtain ⟨a, b⟩ := p
      by_cases h : a = k <;> simp [alookup, h, ih]

theorem alookup_eq_none_iff {α β : Type} [DecidableEq α] (l : List (α × β)) (k : α) :
    alookup l k = none ↔ k ∉ l.map Prod.fst := by
  induction l with
  | nil => simp [alookup]
  | cons p rest ih =>
      obtain ⟨a, b⟩ := p
      by_cases h : a = k
      · subst h
        simp [alookup]
      · simp only [alookup, if_neg h, List.map_cons, List.mem_cons, not_or, ih]
        constructor
        · intro hk
          exact ⟨fun hka => h hka.symm, hk⟩
        · intro hk
          exact hk.2

theorem foldl_append_eq_flatMap {α β : Type} (g : α → List β) (l : List α) :
    ∀ init : List β,
      l.foldl (fun acc a => acc ++ g a) init = init ++ l.flatMap g := by
  induction l with
  | nil => intro init; simp
  | cons a rest ih =>
      intro init
      simp [List.foldl_cons, ih, List.flatMap_cons]

/-- The candidate loop of `which_fellow` is a first-match search over the
candidate list, with no other state. -/
theorem which_fellow_eq_find (email dn : String) (cands : List String)
    (fm : List (String × List String)) :
    which_fellow email dn cands fm
      = cands.find? (fun fellow =>
          sender_matches_fellow email dn fellow ((alookup fm fellow).getD [])) := by
  induction cands with
  | nil => rfl
  | cons f rest ih =>
      simp only [which_fellow, List.find?]
      by_cases h : sender_matches_fellow email dn f ((alookup fm f).getD []) = true
      · simp [h]
      · simp only [Bool.not_eq_true] at h
        simp [h, ih]

/-- The matched dict maps `f` to the email of the first sender (in arrival
order) that `which_fellow` resolves to `f`, and an existing binding is
never overwritten. -/
theorem markSenders_alookup (fellows : List String) (fm : List (String × List String))
    (f : String) (hf : f ≠ "") :
    ∀ (senders matched : List (String × String)),
      alookup (markSenders fellows fm senders matched) f
        = match alookup matched f with
          | some em => some em
          | none => (senders.find? (fun s =>
              decide (which_fellow s.1 s.2 fellows fm = some f))).map Prod.fst := by
  intro senders
  induction senders with
  | nil =>
      intro matched
      simp only [markSenders, List.find?]
      cases alookup matched f <;> simp
  | cons s rest ih =>
      intro matched
      obtain ⟨email, dn⟩ := s
      cases hwf : which_fellow email dn fellows fm with
      | none =>
          have hpred : ((fun s : String × String =>
              decide (which_fellow s.1 s.2 fellows fm = some f)) (email, dn)) = false := by
            simp [hwf]
          simp only [markSenders, hwf]
          rw [ih matched, List.find?_cons]
          simp only [hpred]
      | some g =>
          simp only [markSenders, hwf]
          by_cases hgf : g = f
          · subst hgf
            have hpred : ((fun s : String × String =>
                decide (which_fellow s.1 s.2 fellows fm = some g)) (email, dn)) = true := by
              simp [hwf]
            cases hm : alookup matched g with
            | some em =>
                rw [if_neg (by simp), ih matched, hm]
            | none =>
                rw [if_pos ⟨hf, rfl⟩, ih (matched ++ [(g, email)]), alookup_append, hm,
                  List.find?_cons]
                simp only [hpred]
                simp [alookup]
          · have hpred : ((fun s : String × String =>
                decide (which_fellow s.1 s.2 fellows fm = some f)) (email, dn)) = false := by
              simp [hwf, hgf]
            have hsingle : alookup [(g, email)] f = none := by
              simp [alookup, hgf]
            by_cases hcond : g ≠ "" ∧ alookup matched g = none
            · rw [if_pos hcond, ih (matched ++ [(g, email)]), alookup_append, hsingle,
                List.find?_cons]
              simp only [hpred]
              cases alookup matched f <;> rfl
            · rw [if_neg hcond, ih matched, List.find?_cons]
              simp only [hpred]

/-- Keys are only ever added to the matched dict when absent, so the key
list stays duplicate-free. -/
theorem markSenders_keys_nodup (fellows : List String) (fm : List (String × List String)) :
    ∀ (senders matched : List (String × String)),
      (matched.map Prod.fst).Nodup →
      ((markSenders fellows fm senders matched).map Prod.fst).Nodup := by
  intro senders
  induction senders with
  | nil =>
      intro matched h
      simpa [markSenders] using h
  | cons s rest ih =>
      intro matched h
      obtain ⟨email, dn⟩ := s
      cases hwf : which_fellow email dn fellows fm with
      | none =>
          simp only [markSenders, hwf]
          exact ih matched h
      | some g =>
          simp only [markSenders, hwf]
          by_cases hcond : g ≠ "" ∧ alookup matched g = none
          · rw [if_pos hcond]
            apply ih
            rw [List.map_append]
            simp only [List.map_cons, List.map_nil]
            exact List.Nodup.append h (List.nodup_singleton g)
              (List.disjoint_singleton.mpr ((alookup_eq_none_iff matched g).mp hcond.2))
          · rw [if_neg hcond]
            exact ih matched h

/-- The records contributed by a single expected entry in `mark_present`:
one per fellow, in the order of the entry, with status read off the
matched dict built by `markSenders` from that date's sender pool. -/
def entryRecords (senders_by_date : List (Nat × List (String × String)))
    (fellows_map : List (String × List String)) (e : ExpectedEntry) :
    List AttendanceRecord :=
  e.fellows.map (fun fellow =>
    { date := e.date, day_name := e.day_name, session_index := e.session_index,
      time := e.time, fellow := fellow,
      status :=
        if (alookup (markSenders e.fellows fellows_map
              ((alookup senders_by_date e.date).getD []) []) fellow).isSome
        then "present" else "absent",
      matched_email :=
        alookup (markSenders e.fellows fellows_map
          ((alookup senders_by_date e.date).getD []) []) fellow })

/-- The report loop of `mark_present` concatenates the per-entry records in
input order. -/
theorem mark_present_eq_flatMap (expected : List ExpectedEntry)
    (sbd : List (Nat × List (String × String))) (fm : List (String × List String)) :
    mark_present expected sbd fm = expected.flatMap (entryRecords sbd fm) := by
  show expected.foldl (fun report e => report ++ entryRecords sbd fm e) []
      = expected.flatMap (entryRecords sbd fm)
  rw [foldl_append_eq_flatMap]
  simp

/-! ## Claim theorems -/

/-- C1: `mark_present` produces exactly one AttendanceRecord per
(date, session, fellow) pair listed in an ExpectedEntry, in the order
fellows appear in each entry (first and second conjuncts); a record's
status is "present" exactly when its fellow was placed in that entry's
matched dict built by `markSenders` (the `entryRecords` shape), the
matched email is present exactly when the status is "present" and is
`none` otherwise, and every status is "present" or "absent" (third
conjunct). -/
theorem mark_present_one_record_per_pair (expected : List ExpectedEntry)
    (sbd : List (Nat × List (String × String))) (fm : List (String × List String)) :
    mark_present expected sbd fm = expected.flatMap (entryRecords sbd fm)
  ∧ (mark_present expected sbd fm).map (fun r => (r.date, r.session_index, r.fellow))
      = expected.flatMap (fun e => e.fellows.map (fun f => (e.date, e.session_index, f)))
  ∧ (mark_present expected sbd fm).all (fun r =>
      ((r.status == "present") == r.matched_email.isSome)
        && (r.status == "present" || r.status == "absent")) = true := by
  refine ⟨mark_present_eq_flatMap expected sbd fm, ?_, ?_⟩
  · rw [mark_present_eq_flatMap, List.map_flatMap]
    congr 1
    funext e
    simp [entryRecords, List.map_map, Function.comp]
  · rw [mark_present_eq_flatMap, List.all_eq_true]
    intro r hr
    rw [List.mem_flatMap] at hr
    obtain ⟨e, he, hre⟩ := hr
    simp only [entryRecords, List.mem_map] at hre
    obtain ⟨f, hf, rfl⟩ := hre
    cases halo : alookup (markSenders e.fellows fm ((alookup sbd e.date).getD []) []) f <;>
      simp [halo]

/-- C2: the matched dict binds a fellow to the email of the first sender
(in the observed pool's arrival order) that `which_fellow` resolves to that
fellow, and the binding is never overwritten by later senders; the dict's
keys are duplicate-free, so the fellow still yields exactly one record. -/
theorem first_sender_wins (senders : List (String × String)) (fellows : List String)
    (fm : List (String × List String)) (f : String) (hf : f ≠ "") :
    alookup (markSenders fellows fm senders []) f
      = (senders.find? (fun s =>
          decide (which_fellow s.1 s.2 fellows fm = some f))).map Prod.fst
  ∧ ((markSenders fellows fm senders []).map Prod.fst).Nodup := by
  constructor
  · rw [markSenders_alookup fellows fm f hf senders []]
    simp [alookup]
  · exact markSenders_keys_nodup fellows fm senders [] (by simp)

/-- Witness for `first_sender_wins`: both senders match "Ann"; the dict
keeps the email of the first. -/
theorem first_sender_wins_witness :
    ("Ann" : String) ≠ ""
  ∧ (alookup (markSenders ["Ann"] [] [("a@x", "Ann"), ("b@x", "Ann")] []) "Ann"
        = (([("a@x", "Ann"), ("b@x", "Ann")] : List (String × String)).find? (fun s =>
            decide (which_fellow s.1 s.2 ["Ann"] [] = some "Ann"))).map Prod.fst
      ∧ ((markSenders ["Ann"] [] [("a@x", "Ann"), ("b@x", "Ann")] []).map Prod.fst).Nodup) :=
  ⟨by decide,
   first_sender_wins [("a@x", "Ann"), ("b@x", "Ann")] ["Ann"] [] "Ann" (by decide)⟩

/-- C3: `which_fellow` returns the first candidate fellow matching the
sender, with no regard for fellows already matched (first conjunct); so in
`mark_present` a sender whose first matching candidate is already in the
matched dict is discarded entirely: concretely, sender ("s2@x", "Ann")
does match fellow "Ann Lee" (second conjunct), yet "Ann Lee" is reported
absent because both senders resolve to candidate "Ann" first (third
conjunct). -/
theorem which_fellow_first_candidate_only :
    (∀ (email dn : String) (cands : List String) (fm : List (String × List String)),
        which_fellow email dn cands fm
          = cands.find? (fun fellow =>
              sender_matches_fellow email dn fellow ((alookup fm fellow).getD [])))
  ∧ sender_matches_fellow "s2@x" "Ann" "Ann Lee" [] = true
  ∧ mark_present [⟨1, "tuesday", 0, "3pm", ["Ann", "Ann Lee"]⟩]
      [(1, [("s1@x", "Ann"), ("s2@x", "Ann")])] []
    = [⟨1, "tuesday", 0, "3pm", "Ann", "present", some "s1@x"⟩,
       ⟨1, "tuesday", 0, "3pm", "Ann Lee", "absent", none⟩] :=
  ⟨fun email dn cands fm => which_fellow_eq_find email dn cands fm, by decide, by decide⟩

/-- C4: when the alias loop, the emptiness guard and the mutual-substring
test all pass through, the word-set rule decides the match: if every
whitespace/comma-delimited word of the normalized fellow name occurs in
the display name's word set, the sender matches (first conjunct);
display name "Liu, Jerry" matches fellow "Jerry Liu" but fellow
"Jerry Liuxxx" does not match that display name (second and third
conjuncts). -/
theorem word_set_rule :
    (∀ (email dn fellow : String) (aliases : List String),
        _normalize_name fellow ≠ "" →
        _normalize_name (pyStrip dn) ≠ "" →
        wordSubset (pySplit (_normalize_name fellow))
            (pySplit (commaToSpace (_normalize_name (pyStrip dn)))) = true →
        sender_matches_fellow email dn fellow aliases = true)
  ∧ sender_matches_fellow "" "Liu, Jerry" "Jerry Liu" [] = true
  ∧ sender_matches_fellow "" "Liu, Jerry" "Jerry Liuxxx" [] = false := by
  refine ⟨?_, by decide, by decide⟩
  intro email dn fellow aliases hF hD hW
  simp only [sender_matches_fellow]
  split
  · rfl
  · split
    · next h2 => exact absurd h2 (not_or.mpr ⟨hF, hD⟩)
    · split
      · rfl
      · exact hW

/-- Witness for the general conjunct of `word_set_rule` at the
"Liu, Jerry" / "Jerry Liu" pair, with a non-matching alias present. -/
theorem word_set_rule_witness :
    _normalize_name "Jerry Liu" ≠ ""
  ∧ _normalize_name (pyStrip "Liu, Jerry") ≠ ""
  ∧ wordSubset (pySplit (_normalize_name "Jerry Liu"))
      (pySplit (commaToSpace (_normalize_name (pyStrip "Liu, Jerry")))) = true
  ∧ sender_matches_fellow "bob@x" "Liu, Jerry" "Jerry Liu" ["zz"] = true :=
  ⟨by decide, by decide, by decide,
   word_set_rule.1 "bob@x" "Liu, Jerry" "Jerry Liu" ["zz"]
     (by decide) (by decide) (by decide)⟩

/-- C5: a fellow whose roster entry is absent (read as an empty alias
list) or maps to an empty alias list still matches any sender whose
normalized display name equals the normalized fellow name, via the
name-only fallback, and `which_fellow` then finds the fellow. -/
theorem empty_alias_name_fallback (email dn fellow : String)
    (fm : List (String × List String))
    (hro : alookup fm fellow = none ∨ alookup fm fellow = some [])
    (hne : _normalize_name fellow ≠ "")
    (heq : _normalize_name (pyStrip dn) = _normalize_name fellow) :
    sender_matches_fellow email dn fellow ((alookup fm fellow).getD []) = true
  ∧ which_fellow email dn [fellow] fm = some fellow := by
  have hal : (alookup fm fellow).getD [] = [] := by
    rcases hro with h | h <;> simp [h]
  have hsm : sender_matches_fellow email dn fellow [] = true := by
    simp [sender_matches_fellow, heq, hne, pyContains_self]
  constructor
  · rw [hal]
    exact hsm
  · simp [which_fellow, hal, hsm]

/-- Witness for `empty_alias_name_fallback`: roster entry "Bo Kim" has an
empty alias list and the sender display name is exactly "Bo Kim". -/
theorem empty_alias_name_fallback_witness :
    (alookup [("Bo Kim", ([] : List String))] "Bo Kim" = none ∨
        alookup [("Bo Kim", ([] : List String))] "Bo Kim" = some [])
  ∧ _normalize_name "Bo Kim" ≠ ""
  ∧ _normalize_name (pyStrip "Bo Kim") = _normalize_name "Bo Kim"
  ∧ (sender_matches_fellow "unknown@x.com" "Bo Kim" "Bo Kim"
        ((alookup [("Bo Kim", ([] : List String))] "Bo Kim").getD []) = true
      ∧ which_fellow "unknown@x.com" "Bo Kim" ["Bo Kim"] [("Bo Kim", [])]
          = some "Bo Kim") :=
  ⟨Or.inr (by decide), by decide, by decide,
   empty_alias_name_fallback "unknown@x.com" "Bo Kim" "Bo Kim" [("Bo Kim", [])]
     (Or.inr (by decide)) (by decide) (by decide)⟩

/-- C10: an alias that is empty after stripping makes
`sender_matches_fellow` return true for every sender whose email is
non-empty, and likewise for every sender whose normalized display name is
non-empty: the empty alias is a substring of every non-empty string. -/
theorem empty_alias_matches_all (email dn fellow a : String) (aliases : List String)
    (ha : a ∈ aliases) (hempty : pyStrip a = "")
    (_hne : email ≠ "" ∨ _normalize_name (pyStrip dn) ≠ "") :
    sender_matches_fellow email dn fellow aliases = true := by
  have ham : aliasMatches (pyStrip (strLower email)) (_normalize_name (pyStrip dn)) a
      = true := by
    simp only [aliasMatches, hempty]
    have hsl : strLower "" = "" := rfl
    rw [hsl]
    by_cases he : pyStrip (strLower email) = ""
    · simp [he]
    · have h2 : pyContains (pyStrip (strLower email)) "" = true := pyContains_empty _
      simp [he, h2]
  have hany : aliases.any
      (aliasMatches (pyStrip (strLower email)) (_normalize_name (pyStrip dn))) = true :=
    List.any_eq_true.mpr ⟨a, ha, ham⟩
  simp [sender_matches_fellow, hany]

/-- Witness for `empty_alias_matches_all`: the alias " " strips to empty
and sender email "x@y" is non-empty, so fellow "Fred" matches. -/
theorem empty_alias_matches_all_witness :
    (" " : String) ∈ ([" "] : List String)
  ∧ pyStrip " " = ""
  ∧ (("x@y" : String) ≠ "" ∨ _normalize_name (pyStrip "") ≠ "")
  ∧ sender_matches_fellow "x@y" "" "Fred" [" "] = true :=
  ⟨by decide, by decide, Or.inl (by decide),
   empty_alias_matches_all "x@y" "" "Fred" " " [" "] (by decide) (by decide)
     (Or.inl (by decide))⟩

/-- C8: `get_expected_attendance` returns the full expansion for any
configured week type, returns the unknown-week-type error when the week
type is not configured, and errors exactly in that case (so a configured
week type never produces this error, and an error carries no partial
output). -/
theorem configuration_error_iff_unknown_week (schedule : List (String × Week))
    (week_type : String) (s e : Nat) (off : List Nat) :
    (∀ week, alookup schedule week_type = some week →
        get_expected_attendance schedule week_type s e off
          = Except.ok (expandFrom week off s e))
  ∧ (alookup schedule week_type = none →
        get_expected_attendance schedule week_type s e off
          = Except.error (ConfigurationError.unknownWeekType week_type))
  ∧ ((∃ err, get_expected_attendance schedule week_type s e off = Except.error err)
        ↔ alookup schedule week_type = none) := by
  refine ⟨fun w hw => by simp [get_expected_attendance, hw],
    fun hc => by simp [get_expected_attendance, hc], ?_⟩
  cases h : alookup schedule week_type with
  | none => simp [get_expected_attendance, h]
  | some week => simp [get_expected_attendance, h]

/-- Witness for `configuration_error_iff_unknown_week`: a schedule with
only a "blue" week type succeeds for "blue" and errors for "gold". -/
theorem configuration_error_iff_unknown_week_witness :
    get_expected_attendance [("blue", ([] : Week))] "blue" 0 3 []
      = Except.ok (expandFrom [] [] 0 3)
  ∧ get_expected_attendance [("blue", ([] : Week))] "gold" 0 3 []
      = Except.error (ConfigurationError.unknownWeekType "gold") :=
  ⟨(configuration_error_iff_unknown_week [("blue", [])] "blue" 0 3 []).1 [] (by decide),
   (configuration_error_iff_unknown_week [("blue", [])] "gold" 0 3 []).2.1 (by decide)⟩

/-- Unrolling the date loop: the expansion of `[d, d + n - 1]` is the
concatenation of the per-day entries over the ascending list of days. -/
theorem expandLoop_eq_flatMap (week : Week) (off : List Nat) :
    ∀ (n d : Nat),
      expandLoop week off d n
        = ((List.range n).map (· + d)).flatMap (dayEntries week off) := by
  intro n
  induction n with
  | zero => intro d; simp [expandLoop]
  | succ m ih =>
      intro d
      have hfun : ((fun x => x + d) ∘ Nat.succ) = (fun x => x + (d + 1)) := by
        funext x
        simp only [Function.comp]
        omega
      rw [List.range_succ_eq_map, List.map_cons, List.map_map, hfun, List.flatMap_cons,
        ← ih (d + 1)]
      simp [expandLoop]

/-- The range form of `expandFrom`. -/
theorem expandFrom_eq_flatMap (week : Week) (off : List Nat) (d e : Nat) :
    expandFrom week off d e
      = ((List.range (e + 1 - d)).map (· + d)).flatMap (dayEntries week off) :=
  expandLoop_eq_flatMap week off (e + 1 - d) d

/-- Splitting a range at `m`: expanding `[s, e]` equals expanding `[s, m]`
then `[m + 1, e]`. -/
theorem expandFrom_split (week : Week) (off : List Nat) (s m e : Nat)
    (h1 : s ≤ m + 1) (h2 : m ≤ e) :
    expandFrom week off s e
      = expandFrom week off s m ++ expandFrom week off (m + 1) e := by
  rw [expandFrom_eq_flatMap, expandFrom_eq_flatMap, expandFrom_eq_flatMap]
  have hr : e + 1 - s = (m + 1 - s) + (e - m) := by omega
  rw [hr, List.range_add, List.map_append, List.flatMap_append,
    (by omega : e + 1 - (m + 1) = e - m)]
  congr 1
  rw [List.map_map]
  have hfun : ((fun x => x + s) ∘ fun x => m + 1 - s + x) = fun x => x + (m + 1) := by
    funext x
    simp only [Function.comp]
    omega
  rw [hfun]

/-- A list of consecutive (start, end) pieces exactly tiling [s, e]: each
piece starts where the previous region starts, stays within [s, e], and the
pieces are contiguous, ending at e. -/
def tilesRange : Nat → Nat → List (Nat × Nat) → Bool
  | s, e, [] => decide (s = e + 1)
  | s, e, (a, b) :: rest =>
      decide (a = s) && decide (s ≤ b + 1) && decide (b ≤ e) && tilesRange (b + 1) e rest

/-- Concatenating the expansions of the pieces of a tiling recovers the
expansion of the whole range. -/
theorem expandFrom_flatten_of_tiles (week : Week) (off : List Nat) :
    ∀ (ps : List (Nat × Nat)) (s e : Nat), tilesRange s e ps = true →
      (ps.map (fun p => expandFrom week off p.1 p.2)).flatten
        = expandFrom week off s e := by
  intro ps
  induction ps with
  | nil =>
      intro s e ht
      simp only [tilesRange, decide_eq_true_eq] at ht
      have h0 : e + 1 - s = 0 := by omega
      simp [expandFrom, h0, expandLoop]
  | cons p rest ih =>
      intro s e ht
      obtain ⟨a, b⟩ := p
      simp only [tilesRange, Bool.and_eq_true, decide_eq_true_eq] at ht
      obtain ⟨⟨⟨ha, h1⟩, h2⟩, hrest⟩ := ht
      subst ha
      rw [List.map_cons, List.flatten_cons, ih (b + 1) e hrest]
      exact (expandFrom_split week off a b e h1 h2).symm

/-- C6: for a configured week type the Schedule Expander visits each
calendar date from start_date to end_date in ascending order (range form,
first conjunct); a date contributes no entry when it is excluded (second),
when its weekday is outside {sunday, tuesday, thursday} (third), or when
its weekday is absent from the selected week type (fourth); otherwise it
contributes one ExpectedEntry per configured session, in configured order,
carrying the session index, time label and a fellow list equal to the
session's configured list (fifth). -/
theorem schedule_expander_shape (schedule : List (String × Week)) (week_type : String)
    (start_date end_date : Nat) (off_dates : List Nat) (week : Week)
    (hw : alookup schedule week_type = some week) :
    get_expected_attendance schedule week_type start_date end_date off_dates
      = Except.ok (((List.range (end_date + 1 - start_date)).map
          (· + start_date)).flatMap (dayEntries week off_dates))
  ∧ (∀ d ∈ off_dates, dayEntries week off_dates d = [])
  ∧ (∀ d, weekdayName d ∉ SESSION_DAYS → dayEntries week off_dates d = [])
  ∧ (∀ d, alookup week (weekdayName d) = none →
        dayEntries week off_dates d = [])
  ∧ (∀ (d : Nat) (sessions : List Session), d ∉ off_dates →
        weekdayName d ∈ SESSION_DAYS →
        alookup week (weekdayName d) = some sessions →
        dayEntries week off_dates d
          = sessions.enum.map (fun p =>
              { date := d, day_name := weekdayName d,
                session_index := p.1, time := p.2.time.getD "",
                fellows := p.2.fellows.getD [] })) := by
  refine ⟨?_, ?_, ?_, ?_, ?_⟩
  · simp [get_expected_attendance, hw, expandFrom_eq_flatMap]
  · intro d hd
    simp [dayEntries, hd]
  · intro d hd
    by_cases hoff : d ∈ off_dates
    · simp [dayEntries, hoff]
    · simp [dayEntries, hoff, hd]
  · intro d hlook
    by_cases hoff : d ∈ off_dates
    · simp [dayEntries, hoff]
    · by_cases hsd : weekdayName d ∈ SESSION_DAYS
      · simp [dayEntries, hoff, hsd, hlook]
      · simp [dayEntries, hoff, hsd]
  · intro d sessions hoff hsd hlook
    simp [dayEntries, hoff, hsd, hlook]

/-- Witness for `schedule_expander_shape`: one Tuesday session, the range
0..8 with day 1 excluded. -/
theorem schedule_expander_shape_witness :
    get_expected_attendance [("blue", [("tuesday", [⟨some "3pm", some ["Ann"]⟩])])]
        "blue" 0 8 [1]
      = Except.ok (((List.range (8 + 1 - 0)).map (· + 0)).flatMap
          (dayEntries [("tuesday", [⟨some "3pm", some ["Ann"]⟩])] [1]))
  ∧ dayEntries [("tuesday", [⟨some "3pm", some ["Ann"]⟩])] [1] 1 = [] :=
  ⟨(schedule_expander_shape [("blue", [("tuesday", [⟨some "3pm", some ["Ann"]⟩])])]
      "blue" 0 8 [1] [("tuesday", [⟨some "3pm", some ["Ann"]⟩])] (by decide)).1,
   (schedule_expander_shape [("blue", [("tuesday", [⟨some "3pm", some ["Ann"]⟩])])]
      "blue" 0 8 [1] [("tuesday", [⟨some "3pm", some ["Ann"]⟩])] (by decide)).2.1
     1 (by decide)⟩

/-- C7: for any partition of [s, e] into consecutive disjoint pieces, the
concatenation of the Schedule Expander's outputs over the pieces (in
order) equals its output over the whole range, for the same schedule, week
type and exclusion set; each piece's run succeeds with its own expansion. -/
theorem expander_concat_over_partition (schedule : List (String × Week))
    (week_type : String) (off_dates : List Nat) (week : Week)
    (ps : List (Nat × Nat)) (s e : Nat)
    (hw : alookup schedule week_type = some week)
    (ht : tilesRange s e ps = true) :
    get_expected_attendance schedule week_type s e off_dates
      = Except.ok ((ps.map (fun p => expandFrom week off_dates p.1 p.2)).flatten)
  ∧ (∀ p ∈ ps, get_expected_attendance schedule week_type p.1 p.2 off_dates
        = Except.ok (expandFrom week off_dates p.1 p.2)) := by
  constructor
  · rw [expandFrom_flatten_of_tiles week off_dates ps s e ht]
    simp [get_expected_attendance, hw]
  · intro p hp
    simp [get_expected_attendance, hw]

/-- Witness for `expander_concat_over_partition`: [0, 3] split into
[0, 1] and [2, 3]. -/
theorem expander_concat_over_partition_witness :
    tilesRange 0 3 [(0, 1), (2, 3)] = true
  ∧ (get_expected_attendance [("blue", ([] : Week))] "blue" 0 3 []
        = Except.ok ((([(0, 1), (2, 3)] : List (Nat × Nat)).map
            (fun p => expandFrom [] [] p.1 p.2)).flatten)
      ∧ ∀ p ∈ ([(0, 1), (2, 3)] : List (Nat × Nat)),
          get_expected_attendance [("blue", ([] : Week))] "blue" p.1 p.2 []
            = Except.ok (expandFrom [] [] p.1 p.2)) :=
  ⟨by decide,
   expander_concat_over_partition [("blue", [])] "blue" [] [] [(0, 1), (2, 3)] 0 3
     (by decide) (by decide)⟩

/-- C9: roster loading coerces every alias value to a normalized string at
load time: each loaded entry is the coercion of its source value (first
conjunct), every loaded alias is some scalar stringified, stripped and
lowercased (second), a `None` value becomes the empty list (third), a
non-list scalar becomes a one-element list (fourth), and a list value maps
the normalization over its elements (fifth); the loaded roster therefore
maps every fellow name to a list of strings, so matching never encounters
a non-string alias. -/
theorem load_fellows_normalizes (data : List (String × YamlVal)) :
    (∀ p ∈ load_fellows (some data),
        ∃ v : YamlVal, (p.1, v) ∈ data ∧ p.2 = coerceAliases v)
  ∧ (∀ p ∈ load_fellows (some data), ∀ al ∈ p.2,
        ∃ v : YamlScalar, al = strLower (pyStrip (pyStr v)))
  ∧ coerceAliases (YamlVal.scalar YamlScalar.ynull) = []
  ∧ (∀ v : YamlScalar, v ≠ YamlScalar.ynull →
        coerceAliases (YamlVal.scalar v) = [strLower (pyStrip (pyStr v))])
  ∧ (∀ vs : List YamlScalar,
        coerceAliases (YamlVal.list vs)
          = vs.map (fun v => strLower (pyStrip (pyStr v)))) := by
  refine ⟨?_, ?_, rfl, ?_, fun vs => rfl⟩
  · intro p hp
    by_cases hd : data = []
    · subst hd
      simp [load_fellows] at hp
    · simp only [load_fellows, if_neg hd, List.mem_map] at hp
      obtain ⟨q, hq, rfl⟩ := hp
      exact ⟨q.2, by rw [Prod.mk.eta]; exact hq, rfl⟩
  · intro p hp al hal
    by_cases hd : data = []
    · subst hd
      simp [load_fellows] at hp
    · simp only [load_fellows, if_neg hd, List.mem_map] at hp
      obtain ⟨q, hq, rfl⟩ := hp
      obtain ⟨name, v⟩ := q
      cases v with
      | scalar sc =>
          cases sc with
          | ynull => simp [coerceAliases] at hal
          | ystr s =>
              simp [coerceAliases] at hal
              exact ⟨YamlScalar.ystr s, hal⟩
          | yint n =>
              simp [coerceAliases] at hal
              exact ⟨YamlScalar.yint n, hal⟩
          | ybool b =>
              simp [coerceAliases] at hal
              exact ⟨YamlScalar.ybool b, hal⟩
      | list vs =>
          simp only [coerceAliases, List.mem_map] at hal
          obtain ⟨v, hv, rfl⟩ := hal
          exact ⟨v, rfl⟩
  · intro v hv
    cases v with
    | ynull => exact absurd rfl hv
    | ystr s => rfl
    | yint n => rfl
    | ybool b => rfl

/-- Witness for `load_fellows_normalizes`: the alias value " A@X " loads
as the normalized string "a@x". -/
theorem load_fellows_normalizes_witness :
    (∃ v : YamlVal, ("Ann", v) ∈ [("Ann", YamlVal.scalar (YamlScalar.ystr " A@X "))]
        ∧ ["a@x"] = coerceAliases v)
  ∧ (∃ v : YamlScalar, ("a@x" : String) = strLower (pyStrip (pyStr v))) :=
  ⟨(load_fellows_normalizes [("Ann", YamlVal.scalar (YamlScalar.ystr " A@X "))]).1
      ("Ann", ["a@x"]) (by decide),
   (load_fellows_normalizes [("Ann", YamlVal.scalar (YamlScalar.ystr " A@X "))]).2.1
      ("Ann", ["a@x"]) (by decide) "a@x" (by decide)⟩

-- Concrete checks of the example scenarios in the specification.
example : sender_matches_fellow "" "Liu, Jerry" "Jerry Liu" [] = true := by decide
example : sender_matches_fellow "" "Liu, Jerry" "Jerry Liuxxx" [] = false := by decide
example : sender_matches_fellow "alee@x.com" "" "Ann Lee" ["alee@x.com"] = true := by decide
example : sender_matches_fellow "unknown@x.com" "Bo Kim" "Bo Kim" [] = true := by decide
example : which_fellow "unknown@x.com" "Bo Kim" ["Ann Lee", "Bo Kim"]
    [("Ann Lee", ["alee@x.com"]), ("Bo Kim", [])] = some "Bo Kim" := by decide
example :
    mark_present [⟨1, "tuesday", 0, "3pm", ["Ann Lee", "Bo Kim"]⟩]
      [(1, [("alee@x.com", "")])]
      [("Ann Lee", ["alee@x.com"]), ("Bo Kim", [])]
    = [⟨1, "tuesday", 0, "3pm", "Ann Lee", "present", some "alee@x.com"⟩,
       ⟨1, "tuesday", 0, "3pm", "Bo Kim", "absent", none⟩] := by decide
example :
    mark_present [⟨1, "tuesday", 0, "3pm", ["Ann Lee", "Bo Kim"]⟩]
      [(1, [("unknown@x.com", "Bo Kim")])]
      [("Ann Lee", ["alee@x.com"]), ("Bo Kim", [])]
    = [⟨1, "tuesday", 0, "3pm", "Ann Lee", "absent", none⟩,
       ⟨1, "tuesday", 0, "3pm", "Bo Kim", "present", some "unknown@x.com"⟩] := by decide
example :
    get_expected_attendance [("blue", [("tuesday", [⟨some "3pm", some ["Ann Lee"]⟩])])]
      "blue" 0 8 [1]
    = Except.ok [⟨8, "tuesday", 0, "3pm", ["Ann Lee"]⟩] := by decide
example :
    get_expected_attendance [("blue", [])] "gold" 0 7 []
    = Except.error (ConfigurationError.unknownWeekType "gold") := by decide
example : load_fellows (some [("Ann Lee", .list [.ystr " ALee@x.com "]), ("Bo", .scalar .ynull)])
    = [("Ann Lee", ["alee@x.com"]), ("Bo", [])] := by decide

end MFA
